import Mathlib

/-!
# Shallow embedding of the tomlsh core (src/main.rs)

This file embeds the variable-expansion engine (`Env::parse_text`,
`Env::parse_bind`, `Env::eval`) and the sequential script executor
(`Script::run`) of tomlsh, and proves theorems checking the
claims of the specification about them.

Modelling decisions:
* A character stream (`Peekable<Chars>`) is a `List Char`; peeking is
  inspecting the head, consuming is taking a suffix.
* The binding table (`HashMap<String, Vec<String>>`) is an association
  list where the most recent insertion shadows older entries; lookup
  takes the first match, so insert-then-lookup behaves exactly like the
  hash map (last write wins).
* The Rust error type is `()` for every failure; the embedding refines
  it into an enum with one constructor per distinct `Err` site so the
  theorems can tell the failure modes apart.  Which site fires is
  determined by the code path, so this refinement is faithful.
* Process spawning is an oracle `exec : List String → ExecResult`
  passed to the executor; the executor also returns the trace of
  argument vectors it dispatched, which is the observable needed for
  the fail-fast claims.
-/

namespace Tomlsh

/-- The distinct failure sites of the expansion engine.
`emptyLiteral` is the `name.is_empty()` check in `parse_text`,
`emptySentinelName` is the `name.is_empty()` check in `parse_bind`,
`missingBind` is the failed table lookup in `parse_bind`. -/
inductive ExpErr where
  | emptyLiteral : ExpErr
  | emptySentinelName : ExpErr
  | missingBind : String → ExpErr
deriving DecidableEq, Repr

/-- Embeds `struct Env { binds: HashMap<String, Vec<String>> }`, with the map
modelled as an association list (newest entry first). -/
structure Env where
  binds : List (String × List String)
deriving Repr

/-- Lookup, `self.binds.get(&name)`: first (i.e. most recent) entry wins. -/
def Env.find (env : Env) (name : String) : Option (List String) :=
  match env.binds.find? (fun p => p.1 == name) with
  | none => none
  | some p => some p.2

/-- Insertion, `env.binds.insert(name, v)`: the new entry shadows any older one. -/
def Env.insert (env : Env) (name : String) (v : List String) : Env :=
  ⟨(name, v) :: env.binds⟩

/-- Embeds `Env::parse_text`: consume a maximal run of non-`'$'` characters;
an empty run is an error. -/
def Env.parse_text (cs : List Char) : Except ExpErr (String × List Char) :=
  let name := cs.takeWhile (fun c => c != '$')
  if name.isEmpty then .error .emptyLiteral
  else .ok (⟨name⟩, cs.dropWhile (fun c => c != '$'))

/-- Embeds `Env::parse_bind` (called with the sentinel already consumed):
a second `'$'` is the literal escape; otherwise read a maximal run of
ASCII alphanumeric characters and look it up. -/
def Env.parse_bind (env : Env) (cs : List Char) : Except ExpErr (List String × List Char) :=
  if cs.head? = some '$' then .ok (["$"], cs.tail)
  else
    let name := cs.takeWhile Char.isAlphanum
    if name.isEmpty then .error .emptySentinelName
    else
      match env.find ⟨name⟩ with
      | none => .error (.missingBind ⟨name⟩)
      | some bind => .ok (bind, cs.dropWhile Char.isAlphanum)

theorem Env.parse_text_length {cs rest : List Char} {s : String}
    (h : Env.parse_text cs = .ok (s, rest)) : rest.length < cs.length := by
  unfold Env.parse_text at h
  by_cases hn : (cs.takeWhile (fun c => c != '$')).isEmpty
  · simp [hn] at h
  · simp only [hn, Bool.false_eq_true, if_false, Except.ok.injEq, Prod.mk.injEq] at h
    have hlen := congrArg List.length
      (List.takeWhile_append_dropWhile (p := fun c => c != '$') (l := cs))
    rw [List.length_append] at hlen
    have hpos : 0 < (cs.takeWhile (fun c => c != '$')).length := by
      cases hq : cs.takeWhile (fun c => c != '$') with
      | nil => rw [hq] at hn; simp at hn
      | cons a l => simp [hq]
    rw [← h.2]
    omega

theorem Env.parse_bind_length {env : Env} {cs rest : List Char} {v : List String}
    (h : env.parse_bind cs = .ok (v, rest)) : rest.length ≤ cs.length := by
  unfold Env.parse_bind at h
  by_cases hd : cs.head? = some '$'
  · simp only [hd, if_pos, Except.ok.injEq, Prod.mk.injEq] at h
    rw [← h.2]
    cases cs <;> simp
  · simp only [hd, if_false] at h
    by_cases hn : (cs.takeWhile Char.isAlphanum).isEmpty
    · simp [hn] at h
    · simp only [hn, if_false] at h
      cases hf : Env.find env ⟨cs.takeWhile Char.isAlphanum⟩ with
      | none => rw [hf] at h; simp at h
      | some bind =>
        rw [hf] at h
        simp only [Bool.false_eq_true, if_false, Except.ok.injEq, Prod.mk.injEq] at h
        have hlen := congrArg List.length
          (List.takeWhile_append_dropWhile (p := Char.isAlphanum) (l := cs))
        rw [List.length_append] at hlen
        rw [← h.2]
        omega

/-- The loop body of `Env::eval`: `parts` is the accumulator, `cs`
the remaining characters.  Mirrors the Rust `match chars.peek()`. -/
def Env.evalLoop (env : Env) (parts : List String) (cs : List Char) :
    Except ExpErr (List String) :=
  match cs with
  | [] => .ok parts
  | c :: rest =>
    if c = '$' then
      match h : env.parse_bind rest with
      | .error e => .error e
      | .ok (bind, rest2) =>
        let parts2 := if parts.isEmpty then bind
          else parts.flatMap (fun part => bind.map (fun b => part ++ b))
        env.evalLoop parts2 rest2
    else
      match h : Env.parse_text (c :: rest) with
      | .error e => .error e
      | .ok (text, rest2) =>
        let parts2 := if parts.isEmpty then [text]
          else parts.map (fun part => part ++ text)
        env.evalLoop parts2 rest2
termination_by cs.length
decreasing_by
  · have := Env.parse_bind_length h
    simp only [List.length_cons]
    omega
  · exact Env.parse_text_length h

/-- Embeds `Env::eval`: expand one raw argument text against the table. -/
def Env.eval (env : Env) (text : String) : Except ExpErr (List String) :=
  env.evalLoop [] text.data

/-- One `[[cmd]]` entry of a script (`struct Cmd`). -/
structure Cmd where
  name : String
  bind : List String
  cmd : List String
  cwd : String

/-- Embeds `struct Script`. -/
structure Script where
  cmd : List Cmd
  verbose : Bool

/-- Outcome reported by the process-execution collaborator:
`Command::status()` either fails to start the process or returns an
exit status whose `success()` is a boolean. -/
inductive ExecResult where
  | startFailure : ExecResult
  | exited : Bool → ExecResult

/-- The distinct failure sites of `Script::run`. -/
inductive RunErr where
  | expand : ExpErr → RunErr
  | emptyCommand : RunErr
  | startFailure : RunErr
  | nonzeroExit : RunErr
deriving DecidableEq, Repr

/-- The `for arg in cmd { cmd_eval.extend(env.eval(arg)?) }` loop:
expand every argument text in order and flatten, aborting on the
first expansion error. -/
def Env.evalArgs (env : Env) : List String → Except ExpErr (List String)
  | [] => .ok []
  | a :: rest =>
    match env.eval a with
    | .error e => .error e
    | .ok v =>
      match env.evalArgs rest with
      | .error e => .error e
      | .ok vs => .ok (v ++ vs)

/-- Embeds the binding-installation step `if !cmd.name.is_empty()
{ env.binds.insert(...) }`. -/
def Env.bindCmd (env : Env) (c : Cmd) : Env :=
  if c.name = "" then env else env.insert c.name c.bind

/-- The loop of `Script::run`, with process execution supplied by the
oracle `exec`.  Returns the trace of dispatched argument vectors
together with the result (the final environment on success, standing
for the `&mut Env` the Rust code mutates in place). -/
def runCmds (exec : List String → ExecResult) (env : Env) :
    List Cmd → List (List String) × Except RunErr Env
  | [] => ([], .ok env)
  | c :: rest =>
    let env2 := env.bindCmd c
    if c.cmd.isEmpty then runCmds exec env2 rest
    else
      match env2.evalArgs c.cmd with
      | .error e => ([], .error (.expand e))
      | .ok argv =>
        if argv.isEmpty then ([], .error .emptyCommand)
        else
          match exec argv with
          | .startFailure => ([argv], .error .startFailure)
          | .exited false => ([argv], .error .nonzeroExit)
          | .exited true =>
            let r := runCmds exec env2 rest
            (argv :: r.1, r.2)

/-- Embeds `Script::run`. -/
def Script.run (s : Script) (exec : List String → ExecResult) (env : Env) :
    List (List String) × Except RunErr Env :=
  runCmds exec env s.cmd

/-- If every character of `l` satisfies `p` and `s` is empty or starts
with a character violating `p`, then `l` is the maximal `p`-run of
`l ++ s`. -/
theorem takeWhile_all_append {p : Char → Bool} :
    ∀ {l : List Char}, (∀ c ∈ l, p c) →
      ∀ {s : List Char}, (s = [] ∨ ∃ c r, s = c :: r ∧ p c = false) →
      (l ++ s).takeWhile p = l ∧ (l ++ s).dropWhile p = s := by
  intro l
  induction l with
  | nil =>
    intro _ s hs
    rcases hs with rfl | ⟨c, r, rfl, hc⟩
    · exact ⟨rfl, rfl⟩
    · refine ⟨?_, ?_⟩
      · simpa using List.takeWhile_cons_of_neg (l := r) (by simp [hc])
      · simpa using List.dropWhile_cons_of_neg (l := r) (by simp [hc])
  | cons a l ih =>
    intro hl s hs
    have ha : p a := hl a (by simp)
    obtain ⟨h1, h2⟩ := ih (fun c hc => hl c (by simp [hc])) hs
    refine ⟨?_, ?_⟩
    · rw [List.cons_append, List.takeWhile_cons_of_pos ha, h1]
    · rw [List.cons_append, List.dropWhile_cons_of_pos ha, h2]

/-- Running `parse_text` on a non-empty sentinel-free run followed by end of
input or a sentinel: it consumes exactly the run. -/
theorem Env.parse_text_run {p s : List Char} (hp : p ≠ [])
    (hall : ∀ c ∈ p, c ≠ '$')
    (hs : s = [] ∨ ∃ r, s = '$' :: r) :
    Env.parse_text (p ++ s) = .ok (⟨p⟩, s) := by
  have hall2 : ∀ c ∈ p, (c != '$') = true := by
    intro c hc
    simpa using hall c hc
  have hs2 : s = [] ∨ ∃ c r, s = c :: r ∧ (c != '$') = false := by
    rcases hs with rfl | ⟨r, rfl⟩
    · exact Or.inl rfl
    · exact Or.inr ⟨'$', r, rfl, by decide⟩
  obtain ⟨h1, h2⟩ := takeWhile_all_append hall2 hs2
  unfold Env.parse_text
  rw [h1, h2]
  simp [List.isEmpty_iff, hp]

/-- Running `parse_bind` right after the escape sentinel. -/
theorem Env.parse_bind_dollar (env : Env) (r : List Char) :
    env.parse_bind ('$' :: r) = .ok (["$"], r) := by
  simp [Env.parse_bind]

/-- Running `parse_bind` with no name to read: end of input, or a head
character that is neither the sentinel nor alphanumeric. -/
theorem Env.parse_bind_stuck {env : Env} {s : List Char}
    (hs : s = [] ∨ ∃ c r, s = c :: r ∧ c.isAlphanum = false ∧ c ≠ '$') :
    env.parse_bind s = .error .emptySentinelName := by
  rcases hs with rfl | ⟨c, r, rfl, hc, hc2⟩
  · simp [Env.parse_bind]
  · rw [Env.parse_bind]
    rw [if_neg (by simp [hc2])]
    rw [List.takeWhile_cons_of_neg (by simp [hc])]
    rfl

/-- Running `parse_bind` on a non-empty alphanumeric run followed by end of
input or a non-alphanumeric character: it reads exactly the run and
looks it up. -/
theorem Env.parse_bind_name {env : Env} {name s : List Char}
    (hn : name ≠ []) (hall : ∀ c ∈ name, c.isAlphanum)
    (hs : s = [] ∨ ∃ c r, s = c :: r ∧ c.isAlphanum = false) :
    env.parse_bind (name ++ s) =
      match env.find ⟨name⟩ with
      | none => .error (.missingBind ⟨name⟩)
      | some bind => .ok (bind, s) := by
  obtain ⟨h1, h2⟩ := takeWhile_all_append hall hs
  have hd : ¬(name ++ s).head? = some '$' := by
    cases name with
    | nil => exact absurd rfl hn
    | cons a l =>
      have ha : a.isAlphanum := hall a (by simp)
      have ha2 : a ≠ '$' := by
        intro hh
        rw [hh] at ha
        simp at ha
      simp [ha2]
  rw [Env.parse_bind, if_neg hd, h1, h2]
  simp [List.isEmpty_iff, hn]

theorem Env.evalLoop_nil (env : Env) (parts : List String) :
    env.evalLoop parts [] = .ok parts := by
  rw [Env.evalLoop.eq_def]

theorem Env.evalLoop_sentinel_error {env : Env} {s : List Char} {e : ExpErr}
    (parts : List String) (h : env.parse_bind s = .error e) :
    env.evalLoop parts ('$' :: s) = .error e := by
  rw [Env.evalLoop.eq_def]
  dsimp only
  rw [if_pos rfl]
  split
  · next e2 heq =>
    rw [h] at heq
    simp only [Except.error.injEq] at heq
    rw [heq]
  · next bind2 rest3 heq =>
    rw [h] at heq
    simp at heq

theorem Env.evalLoop_sentinel_ok {env : Env} {s rest2 : List Char} {bind : List String}
    (parts : List String) (h : env.parse_bind s = .ok (bind, rest2)) :
    env.evalLoop parts ('$' :: s) =
      env.evalLoop (if parts.isEmpty then bind
        else parts.flatMap fun part => bind.map fun b => part ++ b) rest2 := by
  rw [Env.evalLoop.eq_def]
  dsimp only
  rw [if_pos rfl]
  split
  · next e2 heq =>
    rw [h] at heq
    simp at heq
  · next bind2 rest3 heq =>
    rw [h] at heq
    simp only [Except.ok.injEq, Prod.mk.injEq] at heq
    obtain ⟨rfl, rfl⟩ := heq
    rfl

theorem Env.evalLoop_lit {env : Env} {c : Char} {rest rest2 : List Char}
    {text : String} (parts : List String) (hc : c ≠ '$')
    (h : Env.parse_text (c :: rest) = .ok (text, rest2)) :
    env.evalLoop parts (c :: rest) =
      env.evalLoop (if parts.isEmpty then [text]
        else parts.map fun part => part ++ text) rest2 := by
  rw [Env.evalLoop.eq_def]
  dsimp only
  rw [if_neg hc]
  split
  · next e2 heq =>
    rw [h] at heq
    simp at heq
  · next text2 rest3 heq =>
    rw [h] at heq
    simp only [Except.ok.injEq, Prod.mk.injEq] at heq
    obtain ⟨rfl, rfl⟩ := heq
    rfl

theorem String.mk_append (a b : List Char) : (⟨a⟩ : String) ++ ⟨b⟩ = ⟨a ++ b⟩ := rfl

theorem String.empty_append2 (x : String) : (⟨[]⟩ : String) ++ x = x := by
  cases x
  rfl

theorem String.append_empty2 (x : String) : x ++ (⟨[]⟩ : String) = x := by
  cases x with
  | mk d => rw [String.mk_append, List.append_nil]

/-- Consuming a whole sentinel-free literal run. -/
theorem Env.evalLoop_lit_run {env : Env} {p s : List Char}
    (parts : List String) (hp : p ≠ []) (hall : ∀ c ∈ p, c ≠ '$')
    (hs : s = [] ∨ ∃ r, s = '$' :: r) :
    env.evalLoop parts (p ++ s) =
      env.evalLoop (if parts.isEmpty then [⟨p⟩]
        else parts.map fun part => part ++ (⟨p⟩ : String)) s := by
  cases p with
  | nil => exact absurd rfl hp
  | cons c p2 =>
    have hc : c ≠ '$' := hall c (by simp)
    have ht := Env.parse_text_run hp hall hs
    rw [List.cons_append] at ht ⊢
    exact Env.evalLoop_lit parts hc ht

/-- The fully successful shape: a sentinel-free literal, one marker
bound to a non-empty value list, then a sentinel-free literal tail. -/
theorem Env.eval_lit_marker_lit {env : Env} {p name s : List Char} {v : String}
    {vs : List String}
    (hp : ∀ c ∈ p, c ≠ '$')
    (hn : name ≠ []) (hna : ∀ c ∈ name, c.isAlphanum)
    (hs : ∀ c ∈ s, c ≠ '$')
    (hshead : s = [] ∨ ∃ c r, s = c :: r ∧ c.isAlphanum = false)
    (hfind : env.find ⟨name⟩ = some (v :: vs)) :
    env.eval ⟨p ++ '$' :: (name ++ s)⟩ =
      .ok ((v :: vs).map fun x => ⟨p⟩ ++ x ++ (⟨s⟩ : String)) := by
  have hpb : env.parse_bind (name ++ s) = .ok (v :: vs, s) := by
    rw [Env.parse_bind_name hn hna hshead, hfind]
  have tail_step : env.evalLoop ((v :: vs).map fun x => (⟨p⟩ : String) ++ x) s =
      .ok ((v :: vs).map fun x => ⟨p⟩ ++ x ++ (⟨s⟩ : String)) := by
    by_cases hse : s = []
    · subst hse
      rw [Env.evalLoop_nil]
      simp [String.append_empty2]
    · have hrun := @Env.evalLoop_lit_run env s []
        ((v :: vs).map fun x => (⟨p⟩ : String) ++ x) hse hs (Or.inl rfl)
      rw [List.append_nil] at hrun
      rw [hrun]
      rw [Env.evalLoop_nil]
      simp [List.map_map, Function.comp]
  unfold Env.eval
  show env.evalLoop [] (p ++ '$' :: (name ++ s)) = _
  by_cases hpe : p = []
  · subst hpe
    rw [List.nil_append]
    rw [Env.evalLoop_sentinel_ok [] hpb]
    show env.evalLoop (v :: vs) s = _
    have hmap : (v :: vs).map (fun x => (⟨[]⟩ : String) ++ x) = v :: vs := by
      simp [String.empty_append2]
    rw [hmap] at tail_step
    exact tail_step
  · rw [Env.evalLoop_lit_run [] hpe hp (Or.inr ⟨name ++ s, rfl⟩)]
    show env.evalLoop [(⟨p⟩ : String)] ('$' :: (name ++ s)) = _
    rw [Env.evalLoop_sentinel_ok [⟨p⟩] hpb]
    show env.evalLoop ([(⟨p⟩ : String)].flatMap fun part => (v :: vs).map fun b => part ++ b) s = _
    have hflat : ([(⟨p⟩ : String)].flatMap fun part => (v :: vs).map fun b => part ++ b) =
        (v :: vs).map fun x => (⟨p⟩ : String) ++ x := by
      simp
    rw [hflat]
    exact tail_step

/-- If the scan reaches a `'$'` (only a sentinel-free literal precedes
it) and `parse_bind` fails on what follows, `eval` fails the same way. -/
theorem Env.eval_prefix_sentinel_error {env : Env} {p s : List Char} {e : ExpErr}
    (hall : ∀ c ∈ p, c ≠ '$') (he : env.parse_bind s = .error e) :
    env.eval ⟨p ++ '$' :: s⟩ = .error e := by
  unfold Env.eval
  show env.evalLoop [] (p ++ '$' :: s) = .error e
  by_cases hp : p = []
  · subst hp
    exact Env.evalLoop_sentinel_error [] he
  · rw [Env.evalLoop_lit_run [] hp hall (Or.inr ⟨s, rfl⟩)]
    exact Env.evalLoop_sentinel_error _ he

/-- The function `parse_bind` never produces the error of `parse_text`. -/
theorem Env.parse_bind_error_kind {env : Env} {cs : List Char} {e : ExpErr}
    (h : env.parse_bind cs = .error e) : e ≠ .emptyLiteral := by
  unfold Env.parse_bind at h
  by_cases hd : cs.head? = some '$'
  · rw [if_pos hd] at h
    exact absurd h (by simp)
  · rw [if_neg hd] at h
    by_cases hn : (cs.takeWhile Char.isAlphanum).isEmpty
    · rw [if_pos hn] at h
      have : ExpErr.emptySentinelName = e := by
        simpa using h
      rw [← this]
      simp
    · rw [if_neg hn] at h
      cases hf : env.find ⟨cs.takeWhile Char.isAlphanum⟩ with
      | none =>
        rw [hf] at h
        have : ExpErr.missingBind ⟨cs.takeWhile Char.isAlphanum⟩ = e := by
          simpa using h
        rw [← this]
        simp
      | some bind =>
        rw [hf] at h
        exact absurd h (by simp)

/-- When the head exists and is not the sentinel, `parse_text`
succeeds with a non-empty literal. -/
theorem Env.parse_text_progress {c : Char} {rest : List Char} (hc : c ≠ '$') :
    ∃ s rest2, Env.parse_text (c :: rest) = .ok (s, rest2) ∧ s ≠ "" := by
  unfold Env.parse_text
  rw [List.takeWhile_cons_of_pos (by simp [hc])]
  refine ⟨⟨c :: rest.takeWhile (fun c => c != '$')⟩,
    (c :: rest).dropWhile (fun c => c != '$'), ?_, ?_⟩
  · rw [List.dropWhile_cons_of_pos (by simp [hc])]
    rfl
  · intro hcontra
    have : (c :: rest.takeWhile (fun c => c != '$')) = [] := congrArg String.data hcontra
    simp at this

/-- The function `eval` can never fail with the empty-literal error:
`eval` only calls `parse_text` when the next character exists and is
not the sentinel. -/
theorem Env.eval_ne_emptyLiteral (env : Env) (text : String) :
    env.eval text ≠ .error .emptyLiteral := by
  have main : ∀ (n : Nat) (cs : List Char), cs.length ≤ n → ∀ parts : List String,
      env.evalLoop parts cs ≠ .error .emptyLiteral := by
    intro n
    induction n with
    | zero =>
      intro cs hl parts
      have hnil : cs = [] := by
        cases cs with
        | nil => rfl
        | cons a l => simp at hl
      rw [hnil, Env.evalLoop_nil]
      simp
    | succ n ih =>
      intro cs hl parts
      cases cs with
      | nil =>
        rw [Env.evalLoop_nil]
        simp
      | cons c rest =>
        by_cases hc : c = '$'
        · subst hc
          cases hpb : env.parse_bind rest with
          | error e =>
            rw [Env.evalLoop_sentinel_error parts hpb]
            intro hcontra
            have : e = .emptyLiteral := by simpa using hcontra
            exact Env.parse_bind_error_kind hpb this
          | ok pr =>
            obtain ⟨bind, rest2⟩ := pr
            rw [Env.evalLoop_sentinel_ok parts hpb]
            apply ih
            have h1 := Env.parse_bind_length hpb
            simp only [List.length_cons] at hl
            omega
        · cases hpt : Env.parse_text (c :: rest) with
          | error e =>
            obtain ⟨s, rest2, hok, _⟩ := @Env.parse_text_progress c rest hc
            rw [hok] at hpt
            exact absurd hpt (by simp)
          | ok pr =>
            obtain ⟨text2, rest2⟩ := pr
            rw [Env.evalLoop_lit parts hc hpt]
            apply ih
            have h1 := Env.parse_text_length hpt
            simp only [List.length_cons] at hl h1
            omega
  exact main text.data.length text.data (Nat.le_refl _) []

/-- Fail-fast: commands after a failing prefix contribute nothing, not
even to the dispatch trace. -/
theorem runCmds_append_of_error {exec : List String → ExecResult} :
    ∀ (cs1 : List Cmd) (env : Env) (cs2 : List Cmd) (e : RunErr),
      (runCmds exec env cs1).2 = .error e →
      runCmds exec env (cs1 ++ cs2) = runCmds exec env cs1 := by
  intro cs1
  induction cs1 with
  | nil =>
    intro env cs2 e h
    simp [runCmds] at h
  | cons c cs1 ih =>
    intro env cs2 e h
    rw [List.cons_append]
    by_cases hcc : c.cmd.isEmpty
    · simp only [runCmds, if_pos hcc] at h ⊢
      exact ih _ _ _ h
    · cases hea : (Env.bindCmd env c).evalArgs c.cmd with
      | error e2 =>
        simp only [runCmds, if_neg hcc, hea]
      | ok argv =>
        by_cases hae : argv.isEmpty
        · simp only [runCmds, if_neg hcc, hea, if_pos hae]
        · cases hex : exec argv with
          | startFailure =>
            simp only [runCmds, if_neg hcc, hea, if_neg hae, hex]
          | exited ok =>
            cases ok with
            | false =>
              simp only [runCmds, if_neg hcc, hea, if_neg hae, hex]
            | true =>
              simp only [runCmds, if_neg hcc, hea, if_neg hae, hex] at h ⊢
              rw [ih _ cs2 e h]
  
/-- On a successful run, every dispatched command exited successfully. -/
theorem runCmds_ok_trace {exec : List String → ExecResult} :
    ∀ (cs : List Cmd) (env : Env) (tr : List (List String)) (env2 : Env),
      runCmds exec env cs = (tr, .ok env2) →
      ∀ argv ∈ tr, exec argv = .exited true := by
  intro cs
  induction cs with
  | nil =>
    intro env tr env2 h
    simp only [runCmds, Prod.mk.injEq] at h
    rw [← h.1]
    intro argv hargv
    simp at hargv
  | cons c cs ih =>
    intro env tr env2 h
    by_cases hcc : c.cmd.isEmpty
    · simp only [runCmds, if_pos hcc] at h
      exact ih _ _ _ h
    · cases hea : (Env.bindCmd env c).evalArgs c.cmd with
      | error e2 =>
        simp only [runCmds, if_neg hcc, hea] at h
        simp at h
      | ok argv =>
        by_cases hae : argv.isEmpty
        · simp only [runCmds, if_neg hcc, hea, if_pos hae] at h
          simp at h
        · cases hex : exec argv with
          | startFailure =>
            simp only [runCmds, if_neg hcc, hea, if_neg hae, hex] at h
            simp at h
          | exited ok =>
            cases ok with
            | false =>
              simp only [runCmds, if_neg hcc, hea, if_neg hae, hex] at h
              simp at h
            | true =>
              simp only [runCmds, if_neg hcc, hea, if_neg hae, hex, Prod.mk.injEq] at h
              obtain ⟨htr, hres⟩ := h
              intro a ha
              rw [← htr] at ha
              rcases List.mem_cons.mp ha with rfl | ha2
              · exact hex
              · refine ih (Env.bindCmd env c) _ env2 ?_ a ha2
                have hpair : runCmds exec (Env.bindCmd env c) cs =
                    ((runCmds exec (Env.bindCmd env c) cs).1,
                     (runCmds exec (Env.bindCmd env c) cs).2) := rfl
                rw [hpair, hres]

/-! ## Claim theorems -/

/-- The binding table used by the `test_eval` test in the code:
`a ↦ []`, `b ↦ ["x", "y"]`. -/
def envAB : Env := ⟨[("a", []), ("b", ["x", "y"])]⟩

/-- C1: refuted at the failing input.  With `a ↦ []`, the text `"$a$b"`
references the empty binding `a`, so the claimed cartesian-product
semantics demands `Ok []`; the code instead returns `Ok ["x", "y"]`,
because `parts.is_empty()` cannot tell "accumulator not yet
initialized" from "accumulator collapsed to zero variants", and the
token after the empty-binding marker re-seeds the accumulator. -/
theorem c1_empty_binding_not_collapsing :
    envAB.eval "$a$b" = .ok ["x", "y"] := by
  simp +decide [Env.eval, Env.evalLoop, Env.parse_bind, Env.parse_text, envAB,
    Env.find, List.find?, List.takeWhile, List.dropWhile]

/-- C2, counterexample to the empty-string part: for the empty binding
table, `eval ""` returns `Ok []` (zero tokens), not an error. -/
theorem c2_counterexample_empty_text :
    (⟨[]⟩ : Env).eval "" = .ok [] :=
  Env.evalLoop_nil ⟨[]⟩ []

/-- C2 (amended): `eval ""` is `Ok []` for every binding table, and a
sentinel reached by the scan (after a sentinel-free literal) that is
followed by neither a second sentinel nor an ASCII alphanumeric
character — including a sentinel at end of text — fails with the
empty-marker syntax error. -/
theorem c2_syntax_errors :
    (∀ env : Env, env.eval "" = .ok []) ∧
    (∀ (env : Env) (p s : List Char),
      (∀ c ∈ p, c ≠ '$') →
      (s = [] ∨ ∃ c r, s = c :: r ∧ c.isAlphanum = false ∧ c ≠ '$') →
      env.eval ⟨p ++ '$' :: s⟩ = .error .emptySentinelName) := by
  constructor
  · intro env
    exact Env.evalLoop_nil env []
  · intro env p s hp hs
    exact Env.eval_prefix_sentinel_error hp (Env.parse_bind_stuck hs)

/-- Witness for the amended C2 theorem at concrete inputs: the empty
text, a trailing sentinel, and a sentinel followed by a space. -/
theorem c2_syntax_errors_witness :
    (⟨[]⟩ : Env).eval "" = .ok [] ∧
    (⟨[]⟩ : Env).eval "a$" = .error .emptySentinelName ∧
    (⟨[]⟩ : Env).eval "$ x" = .error .emptySentinelName :=
  ⟨c2_syntax_errors.1 ⟨[]⟩,
    c2_syntax_errors.2 ⟨[]⟩ ['a'] [] (by decide) (Or.inl rfl),
    c2_syntax_errors.2 ⟨[]⟩ [] [' ', 'x'] (by decide)
      (Or.inr ⟨' ', ['x'], rfl, by decide, by decide⟩)⟩

/-- C3, counterexample to the empty-text case: the empty text contains
no sentinel, yet `eval ""` is `Ok []` — a zero-element list, not the
claimed one-element list `Ok [""]`. -/
theorem c3_counterexample_empty_text :
    (⟨[("k", ["v"])]⟩ : Env).eval "" = .ok [] :=
  Env.evalLoop_nil ⟨[("k", ["v"])]⟩ []

/-- C3 (amended): every NON-EMPTY text containing no sentinel expands
to exactly the one-element list holding the text itself, for every
binding table. -/
theorem c3_sentinel_free_identity :
    ∀ (env : Env) (t : String), t ≠ "" → (∀ c ∈ t.data, c ≠ '$') →
      env.eval t = .ok [t] := by
  intro env t ht hall
  cases t with
  | mk cs =>
    have hcs : cs ≠ [] := by
      intro hcontra
      exact ht (by rw [hcontra])
    unfold Env.eval
    show env.evalLoop [] cs = _
    have hrun := @Env.evalLoop_lit_run env cs [] [] hcs hall (Or.inl rfl)
    rw [List.append_nil] at hrun
    rw [hrun]
    show env.evalLoop [⟨cs⟩] [] = _
    exact Env.evalLoop_nil env [⟨cs⟩]

/-- Witness for the amended C3 theorem at the text `"ab"`. -/
theorem c3_sentinel_free_identity_witness :
    (⟨[("a", ["z"])]⟩ : Env).eval "ab" = .ok ["ab"] :=
  c3_sentinel_free_identity ⟨[("a", ["z"])]⟩ "ab" (by decide) (by decide)

/-- C4: `$$` is a literal escape.  For EVERY binding table — even one
that binds the name `"$"` — `eval "$$"` is `["$"]` and
`eval "a$$b"` is `["a$b"]`; no lookup is performed. -/
theorem c4_dollar_escape :
    ∀ env : Env, env.eval "$$" = .ok ["$"] ∧ env.eval "a$$b" = .ok ["a$b"] := by
  intro env
  constructor
  · unfold Env.eval
    show env.evalLoop [] ['$', '$'] = _
    rw [Env.evalLoop_sentinel_ok [] (Env.parse_bind_dollar env [])]
    show env.evalLoop ["$"] [] = _
    exact Env.evalLoop_nil env ["$"]
  · unfold Env.eval
    show env.evalLoop [] (['a'] ++ '$' :: '$' :: ['b']) = _
    rw [Env.evalLoop_lit_run [] (by decide) (by decide) (Or.inr ⟨'$' :: ['b'], rfl⟩)]
    show env.evalLoop ["a"] ('$' :: '$' :: ['b']) = _
    rw [Env.evalLoop_sentinel_ok ["a"] (Env.parse_bind_dollar env ['b'])]
    show env.evalLoop ["a$"] (['b'] ++ []) = _
    rw [Env.evalLoop_lit_run ["a$"] (by decide) (by decide) (Or.inl rfl)]
    show env.evalLoop ["a$b"] [] = _
    exact Env.evalLoop_nil env ["a$b"]

/-- C5: a marker reached by the scan whose name is absent from the
binding table makes the whole expansion fail with the
unresolved-binding error carrying that name — an `Err`, never a
partially expanded `Ok` list. -/
theorem c5_missing_binding_error :
    ∀ (env : Env) (p name s : List Char),
      (∀ c ∈ p, c ≠ '$') →
      name ≠ [] → (∀ c ∈ name, c.isAlphanum) →
      (s = [] ∨ ∃ c r, s = c :: r ∧ c.isAlphanum = false) →
      env.find ⟨name⟩ = none →
      env.eval ⟨p ++ '$' :: (name ++ s)⟩ = .error (.missingBind ⟨name⟩) := by
  intro env p name s hp hn hna hs hfind
  refine Env.eval_prefix_sentinel_error hp ?_
  rw [Env.parse_bind_name hn hna hs, hfind]

/-- Witness for C5 at `eval "$b"` with an empty binding table. -/
theorem c5_missing_binding_error_witness :
    (⟨[]⟩ : Env).eval "$b" = .error (.missingBind "b") :=
  c5_missing_binding_error ⟨[]⟩ [] ['b'] [] (by decide) (by decide) (by decide)
    (Or.inl rfl) (by decide)

/-- C6: cartesian composition order.  (1) `$a$b` with `a ↦ [a1, a2]`
and `b ↦ [b1, b2]` yields `[a1b1, a1b2, a2b1, a2b2]` — earlier marker
varies slower.  (2) `prefix ++ $name ++ suffix` with the name bound to
a non-empty value list yields the values in binding order, each
wrapped by the literal prefix and suffix. -/
theorem c6_cartesian_order :
    (∀ (a1 a2 b1 b2 : String),
      (⟨[("a", [a1, a2]), ("b", [b1, b2])]⟩ : Env).eval "$a$b" =
        .ok [a1 ++ b1, a1 ++ b2, a2 ++ b1, a2 ++ b2]) ∧
    (∀ (env : Env) (p name s : List Char) (v : String) (vs : List String),
      (∀ c ∈ p, c ≠ '$') →
      name ≠ [] → (∀ c ∈ name, c.isAlphanum) →
      (∀ c ∈ s, c ≠ '$') →
      (s = [] ∨ ∃ c r, s = c :: r ∧ c.isAlphanum = false) →
      env.find ⟨name⟩ = some (v :: vs) →
      env.eval ⟨p ++ '$' :: (name ++ s)⟩ =
        .ok ((v :: vs).map fun x => ⟨p⟩ ++ x ++ (⟨s⟩ : String))) := by
  constructor
  · intro a1 a2 b1 b2
    simp +decide [Env.eval, Env.evalLoop, Env.parse_bind, Env.parse_text, Env.find,
      List.find?, List.takeWhile, List.dropWhile]
  · intro env p name s v vs hp hn hna hs hshead hfind
    exact Env.eval_lit_marker_lit hp hn hna hs hshead hfind

/-- Witness for C6 reproducing the test case of the code,
`eval "output/$b.o"` with `b ↦ ["x", "y"]`. -/
theorem c6_cartesian_order_witness :
    (⟨[("b", ["x", "y"])]⟩ : Env).eval "output/$b.o" =
      .ok ["output/x.o", "output/y.o"] := by
  have h := c6_cartesian_order.2 ⟨[("b", ["x", "y"])]⟩
    ['o', 'u', 't', 'p', 'u', 't', '/'] ['b'] ['.', 'o'] "x" ["y"]
    (by decide) (by decide) (by decide) (by decide)
    (Or.inr ⟨'.', ['o'], rfl, by decide⟩) (by decide)
  simpa using h

/-- C7: the binding declared by a command is installed before its own arguments are
expanded and stays for the rest of the run.  (1) Looking up a just
inserted name returns exactly the inserted list (full replacement,
even if the name was bound before).  (2) Other names are unaffected.
(3) A command with name `n` behaves exactly like a nameless command
running under the table with `n ↦ vs` pre-inserted — the binding is
visible to the arguments of the command itself and to all later commands. -/
theorem c7_binding_install :
    (∀ (env : Env) (n : String) (vs : List String),
      (env.insert n vs).find n = some vs) ∧
    (∀ (env : Env) (n : String) (vs : List String) (m : String), m ≠ n →
      (env.insert n vs).find m = env.find m) ∧
    (∀ (exec : List String → ExecResult) (env : Env) (n : String)
        (vs args : List String) (w : String) (rest : List Cmd), n ≠ "" →
      runCmds exec env (⟨n, vs, args, w⟩ :: rest) =
        runCmds exec (env.insert n vs) (⟨"", [], args, w⟩ :: rest)) := by
  refine ⟨?_, ?_, ?_⟩
  · intro env n vs
    simp [Env.insert, Env.find, List.find?]
  · intro env n vs m hm
    have hne : (n == m) = false := by
      simp [Ne.symm hm]
    simp [Env.insert, Env.find, List.find?, hne]
  · intro exec env n vs args w rest hn
    simp only [runCmds, Env.bindCmd, if_neg hn, if_pos rfl]
    rfl

/-- Witness for C7 at a table that already binds `"x"`: the new value
list replaces the old one, an unrelated name is untouched, and a
command declaring `"x"` matches the nameless command under the
pre-inserted table. -/
theorem c7_binding_install_witness :
    ((⟨[("x", ["old"])]⟩ : Env).insert "x" ["v"]).find "x" = some ["v"] ∧
    ((⟨[("x", ["old"]), ("y", ["w"])]⟩ : Env).insert "x" ["v"]).find "y" = some ["w"] ∧
    runCmds (fun _ => .exited true) ⟨[]⟩ [⟨"x", ["v"], ["$x"], ""⟩] =
      runCmds (fun _ => .exited true) ((⟨[]⟩ : Env).insert "x" ["v"]) [⟨"", [], ["$x"], ""⟩] := by
  refine ⟨c7_binding_install.1 ⟨[("x", ["old"])]⟩ "x" ["v"], ?_, ?_⟩
  · have h := c7_binding_install.2.1 ⟨[("x", ["old"]), ("y", ["w"])]⟩ "x" ["v"] "y" (by decide)
    rw [h]
    decide
  · exact c7_binding_install.2.2 (fun _ => .exited true) ⟨[]⟩ "x" ["v"] ["$x"] "" []
      (by decide)

/-- C8: a command that declares arguments whose full expansion
flattens to zero tokens fails the run with the empty-command error,
and nothing is dispatched — the trace is empty. -/
theorem c8_empty_command_error :
    ∀ (exec : List String → ExecResult) (env : Env) (c : Cmd) (rest : List Cmd),
      c.cmd ≠ [] →
      (env.bindCmd c).evalArgs c.cmd = .ok [] →
      runCmds exec env (c :: rest) = ([], .error .emptyCommand) := by
  intro exec env c rest hne hargs
  have hcc : ¬c.cmd.isEmpty = true := by
    simp [List.isEmpty_iff, hne]
  simp only [runCmds, if_neg hcc, hargs]
  rfl

/-- Witness for C8: a command whose single argument `"$a"` references
the empty binding `a ↦ []`. -/
theorem c8_empty_command_error_witness :
    runCmds (fun _ => .exited true) ⟨[("a", [])]⟩ [⟨"", [], ["$a"], ""⟩] =
      ([], .error .emptyCommand) :=
  c8_empty_command_error (fun _ => .exited true) ⟨[("a", [])]⟩ ⟨"", [], ["$a"], ""⟩ []
    (by decide)
    (by simp +decide [Env.bindCmd, Env.evalArgs, Env.eval, Env.evalLoop, Env.parse_bind,
      Env.parse_text, Env.find, List.find?, List.takeWhile, List.dropWhile])

/-- C9: the run is fail-fast and succeeds only when every dispatched
command exits successfully.  (1) If a prefix of the script already
fails, appending further commands changes nothing — neither the
result nor the dispatch trace, so the later commands are never
expanded or executed.  (2) If the whole run returns `Ok`, every
argument vector in the dispatch trace ran with a successful exit. -/
theorem c9_fail_fast :
    (∀ (exec : List String → ExecResult) (env : Env) (cs1 cs2 : List Cmd) (e : RunErr),
      (runCmds exec env cs1).2 = .error e →
      runCmds exec env (cs1 ++ cs2) = runCmds exec env cs1) ∧
    (∀ (exec : List String → ExecResult) (env : Env) (cs : List Cmd)
        (tr : List (List String)) (env2 : Env),
      runCmds exec env cs = (tr, .ok env2) →
      ∀ argv ∈ tr, exec argv = .exited true) :=
  ⟨fun _ env cs1 cs2 e h => runCmds_append_of_error cs1 env cs2 e h,
   fun _ env cs tr env2 h => runCmds_ok_trace cs env tr env2 h⟩

/-- Witness for C9: a script whose first command exits non-zero stays
failed when a second command is appended (and the appended command is
not dispatched), and a succeeding one-command script has every traced
dispatch exiting successfully. -/
theorem c9_fail_fast_witness :
    runCmds (fun _ => .exited false) ⟨[]⟩ ([⟨"", [], ["run"], ""⟩] ++ [⟨"", [], ["later"], ""⟩]) =
      runCmds (fun _ => .exited false) ⟨[]⟩ [⟨"", [], ["run"], ""⟩] ∧
    (fun (_ : List String) => ExecResult.exited true) ["run"] = ExecResult.exited true := by
  constructor
  · refine c9_fail_fast.1 (fun _ => .exited false) ⟨[]⟩ [⟨"", [], ["run"], ""⟩]
      [⟨"", [], ["later"], ""⟩] .nonzeroExit ?_
    simp +decide [runCmds, Env.bindCmd, Env.evalArgs, Env.eval, Env.evalLoop,
      Env.parse_bind, Env.parse_text, List.takeWhile, List.dropWhile]
  · refine c9_fail_fast.2 (fun _ => .exited true) ⟨[]⟩ [⟨"", [], ["run"], ""⟩]
      [["run"]] ⟨[]⟩ ?_ ["run"] (by simp)
    simp +decide [runCmds, Env.bindCmd, Env.evalArgs, Env.eval, Env.evalLoop,
      Env.parse_bind, Env.parse_text, List.takeWhile, List.dropWhile]

/-- C10: the empty-literal error branch of `parse_text` is dead code
as called from `eval`.  (1) Whenever the next character exists and is
not the sentinel — the only situation in which `eval` calls
`parse_text` — `parse_text` returns `Ok` with a non-empty literal.
(2) Consequently `eval` never returns the empty-literal error, on any
input. -/
theorem c10_empty_literal_unreachable :
    (∀ (c : Char) (rest : List Char), c ≠ '$' →
      ∃ s rest2, Env.parse_text (c :: rest) = .ok (s, rest2) ∧ s ≠ "") ∧
    (∀ (env : Env) (text : String), env.eval text ≠ .error .emptyLiteral) :=
  ⟨fun _ _ hc => Env.parse_text_progress hc,
   fun env text => Env.eval_ne_emptyLiteral env text⟩

/-- Witness for C10 at the character `'a'` and the text `"a"`. -/
theorem c10_empty_literal_unreachable_witness :
    (∃ s rest2, Env.parse_text ['a'] = .ok (s, rest2) ∧ s ≠ "") ∧
    (⟨[]⟩ : Env).eval "a" ≠ .error .emptyLiteral :=
  ⟨c10_empty_literal_unreachable.1 'a' [] (by decide),
   c10_empty_literal_unreachable.2 ⟨[]⟩ "a"⟩

end Tomlsh
